import Mathlib

/-!
Formal verification of the clox scanner (src/scanner.c) and virtual machine
(src/vm.c) against their natural-language specification.

The C sources are shallowly embedded below.  Pointers into the source buffer
become natural-number offsets, the global scanner and VM structs become
explicit state records, stdout printing becomes an explicit output trace,
and the unbounded dispatch/scan loops become fuel-indexed structural
recursions.  Each loop's fuel argument is instantiated by its caller with
the number of characters remaining in the buffer (plus a constant), which
is an upper bound on the number of iterations the corresponding C loop can
perform, because every iteration of every loop advances the cursor by at
least one position and every loop stops at the terminating sentinel; hence
the fuel never truncates an execution the C code would continue.
-/

/-! ## VM embedding (src/vm.c)

`value.h`, `chunk.h` and `vm.h` are external headers (out of scope per the
spec); only the facts vm.c uses about them are modelled: `Value` is the
runtime value type (its internal structure is irrelevant to every claim, it
is rendered as `Int`); a chunk is a byte sequence plus a constant pool; the
opcode enumeration declares `OP_CONSTANT` and `OP_RETURN` (a C enum, so the
two tags are the distinct values 0 and 1); `InterpretResult` declares the
three outcome values of §6 of the spec; `STACK_MAX` is the fixed stack
capacity (256 in the reference).
-/

abbrev Value := Int

structure Chunk where
  code : List Nat
  constants : List Value
deriving DecidableEq, Repr

inductive InterpretResult where
  | INTERPRET_OK
  | INTERPRET_COMPILE_ERROR
  | INTERPRET_RUNTIME_ERROR
deriving DecidableEq, Repr

def OP_CONSTANT : Nat := 0

def OP_RETURN : Nat := 1

def STACK_MAX : Nat := 256

/-- The global `VM vm` struct: chunk pointer, instruction pointer (an offset
into `chunk.code`), the value array `stack` and the top-of-stack pointer
(an offset from the base of that array; `Int` because the C pointer can be
moved below the base). -/
structure VM where
  chunk : Chunk
  ip : Nat
  stack : List Value
  stackTop : Int
deriving DecidableEq, Repr

/-- Reading `vm.stack[i]`.  An out-of-range index is undefined behavior in
the C program; the model returns 0 there (no theorem depends on that
value). -/
def sread (l : List Value) (i : Int) : Value :=
  if 0 ≤ i ∧ i < (l.length : Int) then l.getD i.toNat 0 else 0

/-- `static void resetStack()` — rewinds the top pointer to the base. -/
def resetStack (vm : VM) : VM :=
  { vm with stackTop := 0 }

/-- `void initVM()` — just calls resetStack. -/
def initVM (vm : VM) : VM :=
  resetStack vm

/-- `void push(Value value)`.  NOTE the source writes `*vm.stack = value`,
i.e. always to the BASE slot (index 0) of the array, not to the slot the
top pointer designates; only afterwards is `vm.stackTop` advanced.  No
capacity check is performed. -/
def push (value : Value) (vm : VM) : VM :=
  { vm with stack := vm.stack.set 0 value, stackTop := vm.stackTop + 1 }

/-- `Value pop()` — retreats the top pointer, then reads the slot it now
designates.  No emptiness check is performed. -/
def pop (vm : VM) : Value × VM :=
  let vm1 : VM := { vm with stackTop := vm.stackTop - 1 }
  (sread vm1.stack vm1.stackTop, vm1)

/-- `static InterpretResult run()`, fuel-indexed.  `READ_BYTE` is
`vm.chunk->code[ip]` followed by `ip++` (reading past the end of the code
array is UB in C; the model yields byte 0, a case no theorem exercises).
The `OP_CONSTANT` arm reads one operand byte, indexes the constant pool and
prints the value (`printValue`/`printf`) — the printing is modelled by
appending to the output trace `out`.  The arm does NOT push.  The switch
has NO default arm, so a byte that is neither opcode is skipped and the
loop continues with the next byte.  `none` means the fuel ran out before an
`OP_RETURN` was reached. -/
def runAux : Nat → VM → List Value → Option (InterpretResult × VM × List Value)
  | 0, _, _ => none
  | n + 1, vm, out =>
    let instruction := vm.chunk.code.getD vm.ip 0
    let vm1 : VM := { vm with ip := vm.ip + 1 }
    if instruction = OP_CONSTANT then
      let idx := vm1.chunk.code.getD vm1.ip 0
      let vm2 : VM := { vm1 with ip := vm1.ip + 1 }
      let constant := vm2.chunk.constants.getD idx 0
      runAux n vm2 (out ++ [constant])
    else if instruction = OP_RETURN then
      some (InterpretResult.INTERPRET_OK, vm1, out)
    else
      runAux n vm1 out

/-- The state mutations `interpret` performs before entering `run()`:
`vm.chunk = chunk; vm.ip = vm.chunk->code;`.  The stack and its top
pointer are NOT touched. -/
def interpretSetup (chunk : Chunk) (vm : VM) : VM :=
  { vm with chunk := chunk, ip := 0 }

/-- `InterpretResult interpret(Chunk* chunk)` — the setup above, then
`run()`, with an empty output trace. -/
def interpret (chunk : Chunk) (vm : VM) (fuel : Nat) :
    Option (InterpretResult × VM × List Value) :=
  runAux fuel (interpretSetup chunk vm) []

/-- A VM as it stands after `initVM()`: top pointer at the base.  C leaves
the `stack` array contents indeterminate; the model uses zeros, and no
theorem depends on a slot that was not explicitly written first (the one
place indeterminate junk is observable is stated parametrically). -/
def vmFresh : VM :=
  { chunk := { code := [], constants := [] }, ip := 0,
    stack := List.replicate STACK_MAX 0, stackTop := 0 }

/-! ## VM claims -/

/-- Claim C1.  The claim is FALSE of the code: for the container whose
instruction stream is [load-constant idx=0, return] and whose pool holds
the single constant 7, `interpret` does return the success outcome, but at
the point the return opcode executes the evaluation stack holds ZERO
values, not one: the `OP_CONSTANT` arm of `run` prints the referenced
constant (output trace `[7]`) instead of pushing it, so the top-of-stack
offset is still 0.  This theorem evaluates the code at that failing
input. -/
theorem vm_constant_return_success_but_stack_empty :
    (interpret { code := [OP_CONSTANT, 0, OP_RETURN], constants := [7] } vmFresh 2).map
        (fun r => (r.1, r.2.1.stackTop, r.2.2)) =
      some (InterpretResult.INTERPRET_OK, 0, [7]) := by
  decide

/-- Claim C2.  The claim is FALSE of the code: 57 is outside the defined
opcode enumeration, yet interpreting the stream [57, return] yields the
SUCCESS outcome, not the unknown-opcode runtime error — the dispatch
switch in `run` has no default arm, so the unrecognized byte is silently
skipped and the loop continues with the next byte. -/
theorem vm_unknown_opcode_silently_ignored :
    57 ≠ OP_CONSTANT ∧ 57 ≠ OP_RETURN ∧
    (interpret { code := [57, OP_RETURN], constants := [] } vmFresh 2).map
        (fun r => r.1) =
      some InterpretResult.INTERPRET_OK := by
  decide

set_option maxRecDepth 4000 in
/-- Claim C3.  The claim is FALSE of the code: after `push 1; push 2` from
a fresh VM (n = 2 ≤ capacity), two pops must return 2 then 1 under the
claimed LIFO law, but the SECOND pop returns 2 — both pushes wrote the
base slot (`*vm.stack = value`), so 1 was overwritten and slot 0 holds 2,
which the second pop reads.  (The first pop reads slot 1, which holds
indeterminate junk.)  The top pointer does return to 0, which is the only
part of the claim the code satisfies. -/
theorem vm_push_pop_not_lifo :
    (pop (pop (push 2 (push 1 vmFresh))).2).1 = 2 ∧
    (pop (pop (push 2 (push 1 vmFresh))).2).1 ≠ 1 ∧
    (pop (pop (push 2 (push 1 vmFresh))).2).2.stackTop = 0 := by
  decide

/-- Claim C4.  The claim is FALSE of the code: neither `push` nor `pop`
performs any bounds check or reports any error (their C types return
nothing/a Value — there is no error channel at all).  Popping the empty
stack silently moves the top pointer to −1, below the stack base, and
pushing onto a full stack silently moves it to STACK_MAX + 1, beyond the
capacity; both corrupt the state instead of being detected. -/
theorem vm_no_underflow_overflow_detection :
    (pop vmFresh).2.stackTop = -1 ∧
    (push 5 { vmFresh with stackTop := (STACK_MAX : Int) }).stackTop =
      (STACK_MAX : Int) + 1 := by
  decide

/-- Claim C5 counterexample.  A VM whose earlier activity left 3 values on
the stack (top offset 3) is handed the container [return]: `interpret`
returns with the top offset STILL 3 — execution did not begin with an
empty evaluation stack, refuting the claim at this concrete input.
(`interpret` never touches the stack; only `initVM`/`resetStack` empty
it.) -/
theorem interpret_does_not_reset_stack :
    (interpret { code := [OP_RETURN], constants := [] }
          { vmFresh with stackTop := 3 } 1).map (fun r => r.2.1.stackTop) =
      some 3 ∧ (3 : Int) ≠ 0 := by
  decide

/-- Claim C5 as amended: a call to `interpret` begins execution with the
instruction pointer set to the container's first instruction, but it does
not touch the evaluation stack — any contents left by earlier activity
persist; the stack is emptied only by `initVM`/`resetStack`. -/
theorem interpret_sets_ip_and_preserves_stack (chunk : Chunk) (vm : VM) :
    (interpretSetup chunk vm).ip = 0 ∧
    (interpretSetup chunk vm).stack = vm.stack ∧
    (interpretSetup chunk vm).stackTop = vm.stackTop ∧
    (resetStack vm).stackTop = 0 :=
  ⟨rfl, rfl, rfl, rfl⟩

set_option maxRecDepth 4000 in
/-- Claim C6.  The claim is FALSE of the code: executing the container
[load-constant idx=0, return] over the pool [42] — built only from the two
defined opcodes — performs I/O: the `OP_CONSTANT` arm calls
`printValue`/`printf`, producing the non-empty output trace [42], while
the evaluation stack (contents and top offset) is left completely
untouched. -/
theorem vm_constant_opcode_prints :
    (interpret { code := [OP_CONSTANT, 0, OP_RETURN], constants := [42] } vmFresh 2).map
        (fun r => (r.1, r.2.1.stack, r.2.1.stackTop, r.2.2)) =
      some (InterpretResult.INTERPRET_OK, List.replicate STACK_MAX 0, 0, [42]) ∧
    ([(42 : Value)] : List Value) ≠ [] := by
  decide

/-! ## Scanner embedding (src/scanner.c)

The source buffer is a `List Char`; the C `char*` cursors `start` and
`current` become offsets into it.  The C buffer is sentinel-terminated: the
byte at offset `src.length` is the NUL sentinel, which `List.getD`'s
default value supplies.  `scanner.h` is an external header; the token kind
enumeration and the token struct it declares are exactly the ones
scanner.c populates (and §6 of the spec lists). -/

def nullChar : Char := Char.ofNat 0

def quoteChar : Char := Char.ofNat 34

def lbraceChar : Char := Char.ofNat 123

def rbraceChar : Char := Char.ofNat 125

inductive TokenType where
  | TOKEN_LEFT_PAREN | TOKEN_RIGHT_PAREN | TOKEN_LEFT_BRACE | TOKEN_RIGHT_BRACE
  | TOKEN_COMMA | TOKEN_DOT | TOKEN_MINUS | TOKEN_PLUS
  | TOKEN_SEMICOLON | TOKEN_SLASH | TOKEN_STAR
  | TOKEN_BANG | TOKEN_BANG_EQUAL | TOKEN_EQUAL | TOKEN_EQUAL_EQUAL
  | TOKEN_GREATER | TOKEN_GREATER_EQUAL | TOKEN_LESS | TOKEN_LESS_EQUAL
  | TOKEN_IDENTIFIER | TOKEN_STRING | TOKEN_NUMBER
  | TOKEN_AND | TOKEN_CLASS | TOKEN_ELSE | TOKEN_FALSE
  | TOKEN_FOR | TOKEN_FUN | TOKEN_IF | TOKEN_NIL | TOKEN_OR
  | TOKEN_PRINT | TOKEN_RETURN | TOKEN_SUPER | TOKEN_THIS
  | TOKEN_TRUE | TOKEN_VAR | TOKEN_WHILE
  | TOKEN_ERROR | TOKEN_EOF
deriving DecidableEq, Repr

/-- A token's `start` pointer.  In the C struct this is a `const char*`
that points into the source buffer for ordinary tokens but at a static
diagnostic string for error tokens; the two provenances are modelled as a
sum. -/
inductive TokenStart where
  | ofs (n : Nat)
  | lit (msg : List Char)
deriving DecidableEq, Repr

structure Token where
  type : TokenType
  start : TokenStart
  length : Nat
  line : Nat
deriving DecidableEq, Repr

/-- The global `Scanner scanner` struct. -/
structure ScannerS where
  src : List Char
  start : Nat
  current : Nat
  line : Nat
deriving DecidableEq, Repr

/-- `void initScanner(const char* source)`. -/
def initScanner (source : List Char) : ScannerS :=
  { src := source, start := 0, current := 0, line := 1 }

/-- `static bool isAlpha(char c)`. -/
def isAlpha (c : Char) : Bool :=
  decide (('a' ≤ c ∧ c ≤ 'z') ∨ ('A' ≤ c ∧ c ≤ 'Z') ∨ c = '_')

/-- `static bool isDigit(char c)`. -/
def isDigit (c : Char) : Bool :=
  decide ('0' ≤ c ∧ c ≤ '9')

/-- `static char peek()` — `*scanner.current`; reading at or past offset
`src.length` yields the NUL sentinel. -/
def peek (s : ScannerS) : Char :=
  s.src.getD s.current nullChar

/-- `static bool isAtEnd()` — `*scanner.current == '\0'`. -/
def isAtEnd (s : ScannerS) : Bool :=
  decide (peek s = nullChar)

/-- `static char peekNext()`. -/
def peekNext (s : ScannerS) : Char :=
  if isAtEnd s then nullChar else s.src.getD (s.current + 1) nullChar

/-- `static char advance()` increments `scanner.current` and returns the
character previously pointed to; call sites below read that character with
`peek` first, so the model returns only the new state. -/
def advanceS (s : ScannerS) : ScannerS :=
  { s with current := s.current + 1 }

/-- `static bool match(char expected)`. -/
def matchChar (expected : Char) (s : ScannerS) : Bool × ScannerS :=
  if isAtEnd s then (false, s)
  else if peek s ≠ expected then (false, s)
  else (true, advanceS s)

/-- `static Token makeToken(TokenType type)` — span = [start, current),
line = the scanner's line counter AT THE MOMENT OF CREATION. -/
def makeToken (type : TokenType) (s : ScannerS) : Token :=
  { type := type, start := TokenStart.ofs s.start,
    length := s.current - s.start, line := s.line }

/-- `static Token errorToken(const char* message)`. -/
def errorToken (message : List Char) (s : ScannerS) : Token :=
  { type := TokenType.TOKEN_ERROR, start := TokenStart.lit message,
    length := message.length, line := s.line }

def untermMsg : List Char := ("Unterminated string.").toList

def unexpectedMsg : List Char := ("Unexpected character.").toList

/-- The inner loop of skipWhitespace's `//` comment arm:
`while (peek() != '\n' && !isAtEnd()) advance();`.  Fuel: each iteration
advances by one and the guard forces `current < src.length`, so
`src.length - current` iterations always suffice and at fuel 0 the guard
is necessarily false. -/
def skipCommentAux : Nat → ScannerS → ScannerS
  | 0, s => s
  | n + 1, s =>
    if peek s ≠ '\n' ∧ ¬ isAtEnd s then skipCommentAux n (advanceS s) else s

/-- `static void skipWhitespace()`.  Fuel: every iteration (including the
comment arm, which consumes at least the first `/`) advances the cursor by
at least one position, and no arm recurses once `peek` is the sentinel, so
`src.length - current + 1` iterations always suffice. -/
def skipWsAux : Nat → ScannerS → ScannerS
  | 0, s => s
  | n + 1, s =>
    if peek s = ' ' ∨ peek s = '\r' ∨ peek s = '\t' then
      skipWsAux n (advanceS s)
    else if peek s = '\n' then
      skipWsAux n (advanceS { s with line := s.line + 1 })
    else if peek s = '/' then
      if peekNext s = '/' then
        skipWsAux n (skipCommentAux (s.src.length - s.current) s)
      else s
    else s

def skipWhitespace (s : ScannerS) : ScannerS :=
  skipWsAux (s.src.length - s.current + 1) s

/-- `static TokenType checkKeyword(int start, int length, const char* rest,
TokenType type)` — the lexeme is passed explicitly instead of being read
through the global cursor pair; the two conjuncts are the C function's
length test `scanner.current - scanner.start == start + length` and its
`memcmp(scanner.start + start, rest, length) == 0`. -/
def checkKeyword (lexeme : List Char) (start length : Nat) (rest : List Char)
    (type : TokenType) : TokenType :=
  if lexeme.length = start + length ∧ (lexeme.drop start).take length = rest then type
  else TokenType.TOKEN_IDENTIFIER

/-- `static TokenType identifierType()` — the two-level decision tree on
the first (and for `f`/`t` the second) character of the lexeme.  The C
function is only ever called with a non-empty lexeme; the `[]` arm is
unreachable in context. -/
def identifierType : List Char → TokenType
  | [] => TokenType.TOKEN_IDENTIFIER
  | c :: t =>
    if c = 'a' then checkKeyword (c :: t) 1 2 (['n', 'd']) TokenType.TOKEN_AND
    else if c = 'c' then checkKeyword (c :: t) 1 4 (['l', 'a', 's', 's']) TokenType.TOKEN_CLASS
    else if c = 'e' then checkKeyword (c :: t) 1 3 (['l', 's', 'e']) TokenType.TOKEN_ELSE
    else if c = 'f' then
      match t with
      | c1 :: _ =>
        if c1 = 'a' then checkKeyword (c :: t) 2 3 (['l', 's', 'e']) TokenType.TOKEN_FALSE
        else if c1 = 'o' then checkKeyword (c :: t) 2 1 (['r']) TokenType.TOKEN_FOR
        else if c1 = 'u' then checkKeyword (c :: t) 2 1 (['n']) TokenType.TOKEN_FUN
        else TokenType.TOKEN_IDENTIFIER
      | [] => TokenType.TOKEN_IDENTIFIER
    else if c = 'i' then checkKeyword (c :: t) 1 1 (['f']) TokenType.TOKEN_IF
    else if c = 'n' then checkKeyword (c :: t) 1 2 (['i', 'l']) TokenType.TOKEN_NIL
    else if c = 'o' then checkKeyword (c :: t) 1 1 (['r']) TokenType.TOKEN_OR
    else if c = 'p' then checkKeyword (c :: t) 1 4 (['r', 'i', 'n', 't']) TokenType.TOKEN_PRINT
    else if c = 'r' then checkKeyword (c :: t) 1 5 (['e', 't', 'u', 'r', 'n']) TokenType.TOKEN_RETURN
    else if c = 's' then checkKeyword (c :: t) 1 4 (['u', 'p', 'e', 'r']) TokenType.TOKEN_SUPER
    else if c = 't' then
      match t with
      | c1 :: _ =>
        if c1 = 'h' then checkKeyword (c :: t) 2 2 (['i', 's']) TokenType.TOKEN_THIS
        else if c1 = 'r' then checkKeyword (c :: t) 2 2 (['u', 'e']) TokenType.TOKEN_TRUE
        else TokenType.TOKEN_IDENTIFIER
      | [] => TokenType.TOKEN_IDENTIFIER
    else if c = 'v' then checkKeyword (c :: t) 1 2 (['a', 'r']) TokenType.TOKEN_VAR
    else if c = 'w' then checkKeyword (c :: t) 1 4 (['h', 'i', 'l', 'e']) TokenType.TOKEN_WHILE
    else TokenType.TOKEN_IDENTIFIER

/-- The maximal alphanumeric run consumed by `identifier()`:
`while (isAlpha(peek()) || isDigit(peek())) advance();`.  Fuel as for
skipCommentAux. -/
def identLoopAux : Nat → ScannerS → ScannerS
  | 0, s => s
  | n + 1, s =>
    if isAlpha (peek s) || isDigit (peek s) then identLoopAux n (advanceS s) else s

/-- The lexeme currently delimited by the cursor pair: the characters at
offsets [start, current). -/
def lexemeOf (s : ScannerS) : List Char :=
  (s.src.drop s.start).take (s.current - s.start)

/-- `static Token identifier()`. -/
def identifier (s : ScannerS) : Token × ScannerS :=
  let s1 := identLoopAux (s.src.length - s.current) s
  (makeToken (identifierType (lexemeOf s1)) s1, s1)

/-- A maximal digit run: `while (isDigit(peek())) advance();`. -/
def digitLoopAux : Nat → ScannerS → ScannerS
  | 0, s => s
  | n + 1, s =>
    if isDigit (peek s) then digitLoopAux n (advanceS s) else s

/-- `static Token number()`. -/
def number (s : ScannerS) : Token × ScannerS :=
  let s1 := digitLoopAux (s.src.length - s.current) s
  if peek s1 = '.' ∧ isDigit (peekNext s1) then
    let s2 := advanceS s1
    let s3 := digitLoopAux (s2.src.length - s2.current) s2
    (makeToken TokenType.TOKEN_NUMBER s3, s3)
  else (makeToken TokenType.TOKEN_NUMBER s1, s1)

/-- The scan-ahead loop of `string()`:
`while (peek() != '"' && !isAtEnd()) { if (peek() == '\n') scanner.line++;
advance(); }`.  Fuel as for skipCommentAux. -/
def stringLoopAux : Nat → ScannerS → ScannerS
  | 0, s => s
  | n + 1, s =>
    if peek s ≠ quoteChar ∧ ¬ isAtEnd s then
      stringLoopAux n (advanceS (if peek s = '\n' then { s with line := s.line + 1 } else s))
    else s

/-- `static Token string()` — called with the opening quote already
consumed. -/
def string (s : ScannerS) : Token × ScannerS :=
  let s1 := stringLoopAux (s.src.length - s.current) s
  if isAtEnd s1 then (errorToken untermMsg s1, s1)
  else
    let s2 := advanceS s1
    (makeToken TokenType.TOKEN_STRING s2, s2)

/-- The switch of `scanToken` that runs once the first significant
character `c` has been consumed (the cursor of `s1` stands just past
`c`). -/
def scanAfter (c : Char) (s1 : ScannerS) : Token × ScannerS :=
  if isAlpha c then identifier s1
    else if isDigit c then number s1
    else if c = '(' then (makeToken TokenType.TOKEN_LEFT_PAREN s1, s1)
    else if c = ')' then (makeToken TokenType.TOKEN_RIGHT_PAREN s1, s1)
    else if c = lbraceChar then (makeToken TokenType.TOKEN_LEFT_BRACE s1, s1)
    else if c = rbraceChar then (makeToken TokenType.TOKEN_RIGHT_BRACE s1, s1)
    else if c = ';' then (makeToken TokenType.TOKEN_SEMICOLON s1, s1)
    else if c = ',' then (makeToken TokenType.TOKEN_COMMA s1, s1)
    else if c = '.' then (makeToken TokenType.TOKEN_DOT s1, s1)
    else if c = '-' then (makeToken TokenType.TOKEN_MINUS s1, s1)
    else if c = '+' then (makeToken TokenType.TOKEN_PLUS s1, s1)
    else if c = '/' then (makeToken TokenType.TOKEN_SLASH s1, s1)
    else if c = '*' then (makeToken TokenType.TOKEN_STAR s1, s1)
    else if c = '!' then
      let r := matchChar '=' s1
      (makeToken (if r.1 then TokenType.TOKEN_BANG_EQUAL else TokenType.TOKEN_BANG) r.2, r.2)
    else if c = '=' then
      let r := matchChar '=' s1
      (makeToken (if r.1 then TokenType.TOKEN_EQUAL_EQUAL else TokenType.TOKEN_EQUAL) r.2, r.2)
    else if c = '<' then
      let r := matchChar '=' s1
      (makeToken (if r.1 then TokenType.TOKEN_LESS_EQUAL else TokenType.TOKEN_LESS) r.2, r.2)
    else if c = '>' then
      let r := matchChar '=' s1
      (makeToken (if r.1 then TokenType.TOKEN_GREATER_EQUAL else TokenType.TOKEN_GREATER) r.2, r.2)
    else if c = quoteChar then string s1
    else (errorToken unexpectedMsg s1, s1)

/-- `Token scanToken()`. -/
def scanToken (s0 : ScannerS) : Token × ScannerS :=
  let sw := skipWhitespace s0
  let s := { sw with start := sw.current }
  if isAtEnd s then (makeToken TokenType.TOKEN_EOF s, s)
  else scanAfter (peek s) (advanceS s)

/-- The scanner state after `n` calls of `scanToken` on a freshly
initialized scanner over `source`. -/
def scanState (source : List Char) : Nat → ScannerS
  | 0 => initScanner source
  | n + 1 => (scanToken (scanState source n)).2

/-- The token returned by call number `n + 1` of `scanToken` (0-indexed). -/
def nthTok (source : List Char) (n : Nat) : Token :=
  (scanToken (scanState source n)).1

/-- Number of newline characters in a character list. -/
def countNL (l : List Char) : Nat :=
  l.count '\n'

/-- The keyword table as the SPEC states it (§6): the sixteen exact
strings; a lexeme resolves to a keyword kind exactly when it equals a
table entry in both length and content, and to `identifier` otherwise.
This is the spec-side definition that `identifierType` (translated from
the source) is proved against. -/
def keywordSpec (lex : List Char) : TokenType :=
  if lex = ['a', 'n', 'd'] then TokenType.TOKEN_AND
  else if lex = ['c', 'l', 'a', 's', 's'] then TokenType.TOKEN_CLASS
  else if lex = ['e', 'l', 's', 'e'] then TokenType.TOKEN_ELSE
  else if lex = ['f', 'a', 'l', 's', 'e'] then TokenType.TOKEN_FALSE
  else if lex = ['f', 'o', 'r'] then TokenType.TOKEN_FOR
  else if lex = ['f', 'u', 'n'] then TokenType.TOKEN_FUN
  else if lex = ['i', 'f'] then TokenType.TOKEN_IF
  else if lex = ['n', 'i', 'l'] then TokenType.TOKEN_NIL
  else if lex = ['o', 'r'] then TokenType.TOKEN_OR
  else if lex = ['p', 'r', 'i', 'n', 't'] then TokenType.TOKEN_PRINT
  else if lex = ['r', 'e', 't', 'u', 'r', 'n'] then TokenType.TOKEN_RETURN
  else if lex = ['s', 'u', 'p', 'e', 'r'] then TokenType.TOKEN_SUPER
  else if lex = ['t', 'h', 'i', 's'] then TokenType.TOKEN_THIS
  else if lex = ['t', 'r', 'u', 'e'] then TokenType.TOKEN_TRUE
  else if lex = ['v', 'a', 'r'] then TokenType.TOKEN_VAR
  else if lex = ['w', 'h', 'i', 'l', 'e'] then TokenType.TOKEN_WHILE
  else TokenType.TOKEN_IDENTIFIER

example : (nthTok (("for").toList) 0).type = TokenType.TOKEN_FOR := by decide
example : (nthTok (("forest").toList) 0).type = TokenType.TOKEN_IDENTIFIER := by decide
example : (nthTok (("fo").toList) 0).type = TokenType.TOKEN_IDENTIFIER := by decide
example : (nthTok (("12.5").toList) 0).type = TokenType.TOKEN_NUMBER := by decide
example : (nthTok (("  !=").toList) 0).type = TokenType.TOKEN_BANG_EQUAL := by decide
example : (nthTok ((" // c\nx").toList) 0).type = TokenType.TOKEN_IDENTIFIER := by decide
example : (nthTok ((" // c\nx").toList) 0).line = 2 := by decide

/-! ## Keyword resolution (claim C7) -/

theorem checkKeyword_cons1 (c : Char) (t rest : List Char) (n : Nat) (ty : TokenType)
    (hl : rest.length = n) :
    checkKeyword (c :: t) 1 n rest ty =
      if t = rest then ty else TokenType.TOKEN_IDENTIFIER := by
  unfold checkKeyword
  by_cases h : t = rest
  · subst h
    have h1 : (c :: t).length = 1 + n := by simp [← hl, Nat.add_comm]
    have h2 : ((c :: t).drop 1).take n = t := by
      show t.take n = t
      rw [← hl, List.take_length]
    rw [if_pos ⟨h1, h2⟩, if_pos rfl]
  · rw [if_neg, if_neg h]
    rintro ⟨h1, h2⟩
    apply h
    have hlt : t.length = n := by simp at h1; omega
    have hd : ((c :: t).drop 1) = t := rfl
    rw [hd, ← hlt, List.take_length] at h2
    exact h2

theorem checkKeyword_cons2 (c c1 : Char) (t rest : List Char) (n : Nat) (ty : TokenType)
    (hl : rest.length = n) :
    checkKeyword (c :: c1 :: t) 2 n rest ty =
      if t = rest then ty else TokenType.TOKEN_IDENTIFIER := by
  unfold checkKeyword
  by_cases h : t = rest
  · subst h
    have h1 : (c :: c1 :: t).length = 2 + n := by simp [← hl]; omega
    have h2 : ((c :: c1 :: t).drop 2).take n = t := by
      show t.take n = t
      rw [← hl, List.take_length]
    rw [if_pos ⟨h1, h2⟩, if_pos rfl]
  · rw [if_neg, if_neg h]
    rintro ⟨h1, h2⟩
    apply h
    have hlt : t.length = n := by simp at h1; omega
    have hd : ((c :: c1 :: t).drop 2) = t := rfl
    rw [hd, ← hlt, List.take_length] at h2
    exact h2

/-- The source's two-level decision tree computes exactly the spec's
keyword table lookup, on every lexeme. -/
theorem identifierType_eq_kw (lex : List Char) : identifierType lex = keywordSpec lex := by
  cases lex with
  | nil => decide
  | cons c t =>
    by_cases ha : c = 'a'
    · subst ha
      rw [show identifierType ('a' :: t) =
            checkKeyword ('a' :: t) 1 2 (['n', 'd']) TokenType.TOKEN_AND from by
          simp [identifierType]]
      rw [checkKeyword_cons1 'a' t (['n', 'd']) 2 TokenType.TOKEN_AND rfl]
      by_cases ht : t = ['n', 'd']
      · subst ht; decide
      · simp [keywordSpec, List.cons.injEq, ht]
    by_cases hc : c = 'c'
    · subst hc
      rw [show identifierType ('c' :: t) =
            checkKeyword ('c' :: t) 1 4 (['l', 'a', 's', 's']) TokenType.TOKEN_CLASS from by
          simp [identifierType]]
      rw [checkKeyword_cons1 'c' t (['l', 'a', 's', 's']) 4 TokenType.TOKEN_CLASS rfl]
      by_cases ht : t = ['l', 'a', 's', 's']
      · subst ht; decide
      · simp [keywordSpec, List.cons.injEq, ht]
    by_cases he : c = 'e'
    · subst he
      rw [show identifierType ('e' :: t) =
            checkKeyword ('e' :: t) 1 3 (['l', 's', 'e']) TokenType.TOKEN_ELSE from by
          simp [identifierType]]
      rw [checkKeyword_cons1 'e' t (['l', 's', 'e']) 3 TokenType.TOKEN_ELSE rfl]
      by_cases ht : t = ['l', 's', 'e']
      · subst ht; decide
      · simp [keywordSpec, List.cons.injEq, ht]
    by_cases hf : c = 'f'
    · subst hf
      cases t with
      | nil => decide
      | cons c1 t1 =>
        by_cases hfa : c1 = 'a'
        · subst hfa
          rw [show identifierType ('f' :: 'a' :: t1) =
                checkKeyword ('f' :: 'a' :: t1) 2 3 (['l', 's', 'e']) TokenType.TOKEN_FALSE from by
              simp [identifierType]]
          rw [checkKeyword_cons2 'f' 'a' t1 (['l', 's', 'e']) 3 TokenType.TOKEN_FALSE rfl]
          by_cases ht : t1 = ['l', 's', 'e']
          · subst ht; decide
          · simp [keywordSpec, List.cons.injEq, ht]
        by_cases hfo : c1 = 'o'
        · subst hfo
          rw [show identifierType ('f' :: 'o' :: t1) =
                checkKeyword ('f' :: 'o' :: t1) 2 1 (['r']) TokenType.TOKEN_FOR from by
              simp [identifierType]]
          rw [checkKeyword_cons2 'f' 'o' t1 (['r']) 1 TokenType.TOKEN_FOR rfl]
          by_cases ht : t1 = ['r']
          · subst ht; decide
          · simp [keywordSpec, List.cons.injEq, ht]
        by_cases hfu : c1 = 'u'
        · subst hfu
          rw [show identifierType ('f' :: 'u' :: t1) =
                checkKeyword ('f' :: 'u' :: t1) 2 1 (['n']) TokenType.TOKEN_FUN from by
              simp [identifierType]]
          rw [checkKeyword_cons2 'f' 'u' t1 (['n']) 1 TokenType.TOKEN_FUN rfl]
          by_cases ht : t1 = ['n']
          · subst ht; decide
          · simp [keywordSpec, List.cons.injEq, ht]
        · rw [show identifierType ('f' :: c1 :: t1) = TokenType.TOKEN_IDENTIFIER from by
              simp [identifierType, hfa, hfo, hfu]]
          simp [keywordSpec, List.cons.injEq, hfa, hfo, hfu]
    by_cases hi : c = 'i'
    · subst hi
      rw [show identifierType ('i' :: t) =
            checkKeyword ('i' :: t) 1 1 (['f']) TokenType.TOKEN_IF from by
          simp [identifierType]]
      rw [checkKeyword_cons1 'i' t (['f']) 1 TokenType.TOKEN_IF rfl]
      by_cases ht : t = ['f']
      · subst ht; decide
      · simp [keywordSpec, List.cons.injEq, ht]
    by_cases hn : c = 'n'
    · subst hn
      rw [show identifierType ('n' :: t) =
            checkKeyword ('n' :: t) 1 2 (['i', 'l']) TokenType.TOKEN_NIL from by
          simp [identifierType]]
      rw [checkKeyword_cons1 'n' t (['i', 'l']) 2 TokenType.TOKEN_NIL rfl]
      by_cases ht : t = ['i', 'l']
      · subst ht; decide
      · simp [keywordSpec, List.cons.injEq, ht]
    by_cases ho : c = 'o'
    · subst ho
      rw [show identifierType ('o' :: t) =
            checkKeyword ('o' :: t) 1 1 (['r']) TokenType.TOKEN_OR from by
          simp [identifierType]]
      rw [checkKeyword_cons1 'o' t (['r']) 1 TokenType.TOKEN_OR rfl]
      by_cases ht : t = ['r']
      · subst ht; decide
      · simp [keywordSpec, List.cons.injEq, ht]
    by_cases hp : c = 'p'
    · subst hp
      rw [show identifierType ('p' :: t) =
            checkKeyword ('p' :: t) 1 4 (['r', 'i', 'n', 't']) TokenType.TOKEN_PRINT from by
          simp [identifierType]]
      rw [checkKeyword_cons1 'p' t (['r', 'i', 'n', 't']) 4 TokenType.TOKEN_PRINT rfl]
      by_cases ht : t = ['r', 'i', 'n', 't']
      · subst ht; decide
      · simp [keywordSpec, List.cons.injEq, ht]
    by_cases hr : c = 'r'
    · subst hr
      rw [show identifierType ('r' :: t) =
            checkKeyword ('r' :: t) 1 5 (['e', 't', 'u', 'r', 'n']) TokenType.TOKEN_RETURN from by
          simp [identifierType]]
      rw [checkKeyword_cons1 'r' t (['e', 't', 'u', 'r', 'n']) 5 TokenType.TOKEN_RETURN rfl]
      by_cases ht : t = ['e', 't', 'u', 'r', 'n']
      · subst ht; decide
      · simp [keywordSpec, List.cons.injEq, ht]
    by_cases hs : c = 's'
    · subst hs
      rw [show identifierType ('s' :: t) =
            checkKeyword ('s' :: t) 1 4 (['u', 'p', 'e', 'r']) TokenType.TOKEN_SUPER from by
          simp [identifierType]]
      rw [checkKeyword_cons1 's' t (['u', 'p', 'e', 'r']) 4 TokenType.TOKEN_SUPER rfl]
      by_cases ht : t = ['u', 'p', 'e', 'r']
      · subst ht; decide
      · simp [keywordSpec, List.cons.injEq, ht]
    by_cases htt : c = 't'
    · subst htt
      cases t with
      | nil => decide
      | cons c1 t1 =>
        by_cases hth : c1 = 'h'
        · subst hth
          rw [show identifierType ('t' :: 'h' :: t1) =
                checkKeyword ('t' :: 'h' :: t1) 2 2 (['i', 's']) TokenType.TOKEN_THIS from by
              simp [identifierType]]
          rw [checkKeyword_cons2 't' 'h' t1 (['i', 's']) 2 TokenType.TOKEN_THIS rfl]
          by_cases ht : t1 = ['i', 's']
          · subst ht; decide
          · simp [keywordSpec, List.cons.injEq, ht]
        by_cases htr : c1 = 'r'
        · subst htr
          rw [show identifierType ('t' :: 'r' :: t1) =
                checkKeyword ('t' :: 'r' :: t1) 2 2 (['u', 'e']) TokenType.TOKEN_TRUE from by
              simp [identifierType]]
          rw [checkKeyword_cons2 't' 'r' t1 (['u', 'e']) 2 TokenType.TOKEN_TRUE rfl]
          by_cases ht : t1 = ['u', 'e']
          · subst ht; decide
          · simp [keywordSpec, List.cons.injEq, ht]
        · rw [show identifierType ('t' :: c1 :: t1) = TokenType.TOKEN_IDENTIFIER from by
              simp [identifierType, hth, htr]]
          simp [keywordSpec, List.cons.injEq, hth, htr]
    by_cases hv : c = 'v'
    · subst hv
      rw [show identifierType ('v' :: t) =
            checkKeyword ('v' :: t) 1 2 (['a', 'r']) TokenType.TOKEN_VAR from by
          simp [identifierType]]
      rw [checkKeyword_cons1 'v' t (['a', 'r']) 2 TokenType.TOKEN_VAR rfl]
      by_cases ht : t = ['a', 'r']
      · subst ht; decide
      · simp [keywordSpec, List.cons.injEq, ht]
    by_cases hw : c = 'w'
    · subst hw
      rw [show identifierType ('w' :: t) =
            checkKeyword ('w' :: t) 1 4 (['h', 'i', 'l', 'e']) TokenType.TOKEN_WHILE from by
          simp [identifierType]]
      rw [checkKeyword_cons1 'w' t (['h', 'i', 'l', 'e']) 4 TokenType.TOKEN_WHILE rfl]
      by_cases ht : t = ['h', 'i', 'l', 'e']
      · subst ht; decide
      · simp [keywordSpec, List.cons.injEq, ht]
    · rw [show identifierType (c :: t) = TokenType.TOKEN_IDENTIFIER from by
          simp [identifierType, ha, hc, he, hf, hi, hn, ho, hp, hr, hs, htt, hv, hw]]
      simp [keywordSpec, List.cons.injEq, ha, hc, he, hf, hi, hn, ho, hp, hr, hs, htt, hv, hw]

/-! ## Cursor and line bookkeeping -/

/-- The characters of `src` at offsets `[a, b)`. -/
def seg (src : List Char) (a b : Nat) : List Char :=
  (src.drop a).take (b - a)

theorem seg_self (src : List Char) (a : Nat) : seg src a a = [] := by
  simp [seg]

theorem seg_cons (src : List Char) (a b : Nat) (ha : a < src.length) (hab : a < b) :
    seg src a b = src[a] :: seg src (a + 1) b := by
  unfold seg
  rw [List.drop_eq_getElem_cons ha, show b - a = (b - (a + 1)) + 1 from by omega]
  rfl

theorem seg_split (src : List Char) (a b c : Nat) (hab : a ≤ b) (hbc : b ≤ c) :
    seg src a c = seg src a b ++ seg src b c := by
  unfold seg
  rw [show c - a = (b - a) + (c - b) from by omega, List.take_add]
  congr 2
  rw [List.drop_drop]
  congr 1
  omega

theorem countNL_nil : countNL [] = 0 := rfl

theorem countNL_cons (c : Char) (l : List Char) :
    countNL (c :: l) = countNL l + (if c = '\n' then 1 else 0) := by
  unfold countNL
  rw [List.count_cons]
  by_cases h : c = '\n' <;> simp [h]

theorem countNL_append (l1 l2 : List Char) :
    countNL (l1 ++ l2) = countNL l1 + countNL l2 :=
  List.count_append _ _ _

theorem countNL_seg_split (src : List Char) (a b c : Nat) (hab : a ≤ b) (hbc : b ≤ c) :
    countNL (seg src a c) = countNL (seg src a b) + countNL (seg src b c) := by
  rw [seg_split src a b c hab hbc, countNL_append]

theorem lt_length_of_peek_ne (s : ScannerS) (h : peek s ≠ nullChar) :
    s.current < s.src.length := by
  by_contra hh
  exact h (List.getD_eq_default _ _ (by omega))

theorem lt_length_of_not_atEnd (s : ScannerS) (h : ¬ isAtEnd s = true) :
    s.current < s.src.length := by
  apply lt_length_of_peek_ne
  simpa [isAtEnd] using h

theorem peek_eq_getElem (s : ScannerS) (h : s.current < s.src.length) :
    peek s = s.src[s.current] :=
  List.getD_eq_getElem _ _ h

theorem isAlpha_ne (c : Char) (h : isAlpha c = true) : c ≠ '\n' ∧ c ≠ nullChar := by
  constructor <;> rintro rfl <;> exact absurd h (by decide)

theorem isDigit_ne (c : Char) (h : isDigit c = true) : c ≠ '\n' ∧ c ≠ nullChar := by
  constructor <;> rintro rfl <;> exact absurd h (by decide)

/-- What one advancing step does to the four record fields. -/
theorem advanceS_fields (s : ScannerS) :
    (advanceS s).src = s.src ∧ (advanceS s).start = s.start ∧
    (advanceS s).line = s.line ∧ (advanceS s).current = s.current + 1 :=
  ⟨rfl, rfl, rfl, rfl⟩

/-- The identifier loop preserves src, start and line, moves the cursor
monotonically, keeps it inside the buffer, and consumes no newline. -/
theorem identLoopAux_spec : ∀ (n : Nat) (s : ScannerS),
    (identLoopAux n s).src = s.src
    ∧ (identLoopAux n s).start = s.start
    ∧ (identLoopAux n s).line = s.line
    ∧ s.current ≤ (identLoopAux n s).current
    ∧ (s.current ≤ s.src.length → (identLoopAux n s).current ≤ s.src.length)
    ∧ countNL (seg s.src s.current (identLoopAux n s).current) = 0
  | 0, s => by
    simp [identLoopAux, seg_self, countNL]
  | n + 1, s => by
    by_cases hg : (isAlpha (peek s) || isDigit (peek s)) = true
    · have hne : peek s ≠ '\n' ∧ peek s ≠ nullChar := by
        rcases Bool.or_eq_true _ _ |>.mp hg with h | h
        · exact isAlpha_ne _ h
        · exact isDigit_ne _ h
      have hlt : s.current < s.src.length := lt_length_of_peek_ne s hne.2
      have IH := identLoopAux_spec n (advanceS s)
      simp only [advanceS] at IH
      rw [show identLoopAux (n + 1) s = identLoopAux n (advanceS s) from by
        simp [identLoopAux, hg]]
      simp only [advanceS]
      obtain ⟨h1, h2, h3, h4, h5, h6⟩ := IH
      refine ⟨h1, h2, h3, by omega, fun hle => h5 (by omega), ?_⟩
      rw [seg_cons s.src s.current _ hlt (by omega), countNL_cons,
        ← peek_eq_getElem s hlt, if_neg hne.1]
      omega
    · rw [show identLoopAux (n + 1) s = s from by simp [identLoopAux, hg]]
      simp [seg_self, countNL]

/-- Same bookkeeping for the digit loop. -/
theorem digitLoopAux_spec : ∀ (n : Nat) (s : ScannerS),
    (digitLoopAux n s).src = s.src
    ∧ (digitLoopAux n s).start = s.start
    ∧ (digitLoopAux n s).line = s.line
    ∧ s.current ≤ (digitLoopAux n s).current
    ∧ (s.current ≤ s.src.length → (digitLoopAux n s).current ≤ s.src.length)
    ∧ countNL (seg s.src s.current (digitLoopAux n s).current) = 0
  | 0, s => by
    simp [digitLoopAux, seg_self, countNL]
  | n + 1, s => by
    by_cases hg : isDigit (peek s) = true
    · have hne : peek s ≠ '\n' ∧ peek s ≠ nullChar := isDigit_ne _ hg
      have hlt : s.current < s.src.length := lt_length_of_peek_ne s hne.2
      have IH := digitLoopAux_spec n (advanceS s)
      simp only [advanceS] at IH
      rw [show digitLoopAux (n + 1) s = digitLoopAux n (advanceS s) from by
        simp [digitLoopAux, hg]]
      simp only [advanceS]
      obtain ⟨h1, h2, h3, h4, h5, h6⟩ := IH
      refine ⟨h1, h2, h3, by omega, fun hle => h5 (by omega), ?_⟩
      rw [seg_cons s.src s.current _ hlt (by omega), countNL_cons,
        ← peek_eq_getElem s hlt, if_neg hne.1]
      omega
    · rw [show digitLoopAux (n + 1) s = s from by simp [digitLoopAux, hg]]
      simp [seg_self, countNL]

/-- Same bookkeeping for the comment-skipping loop (its guard excludes
both the newline and the sentinel, so no newline is consumed). -/
theorem skipCommentAux_spec : ∀ (n : Nat) (s : ScannerS),
    (skipCommentAux n s).src = s.src
    ∧ (skipCommentAux n s).start = s.start
    ∧ (skipCommentAux n s).line = s.line
    ∧ s.current ≤ (skipCommentAux n s).current
    ∧ (s.current ≤ s.src.length → (skipCommentAux n s).current ≤ s.src.length)
    ∧ countNL (seg s.src s.current (skipCommentAux n s).current) = 0
  | 0, s => by
    simp [skipCommentAux, seg_self, countNL]
  | n + 1, s => by
    by_cases hg : peek s ≠ '\n' ∧ ¬ isAtEnd s = true
    · have hnull : peek s ≠ nullChar := by
        have := hg.2
        simpa [isAtEnd] using this
      have hlt : s.current < s.src.length := lt_length_of_peek_ne s hnull
      have IH := skipCommentAux_spec n (advanceS s)
      simp only [advanceS] at IH
      rw [show skipCommentAux (n + 1) s = skipCommentAux n (advanceS s) from by
        rw [skipCommentAux, if_pos hg]]
      simp only [advanceS]
      obtain ⟨h1, h2, h3, h4, h5, h6⟩ := IH
      refine ⟨h1, h2, h3, by omega, fun hle => h5 (by omega), ?_⟩
      rw [seg_cons s.src s.current _ hlt (by omega), countNL_cons,
        ← peek_eq_getElem s hlt, if_neg hg.1]
      omega
    · rw [show skipCommentAux (n + 1) s = s from by rw [skipCommentAux, if_neg hg]]
      simp [seg_self, countNL]

/-- The string scan-ahead loop: preserves src and start, moves the cursor
monotonically inside the buffer, adds exactly the consumed newlines to the
line counter, and — when given at least as much fuel as there are
characters left — stops only at a quote or at end of input. -/
theorem stringLoopAux_spec : ∀ (n : Nat) (s : ScannerS),
    (stringLoopAux n s).src = s.src
    ∧ (stringLoopAux n s).start = s.start
    ∧ s.current ≤ (stringLoopAux n s).current
    ∧ (s.current ≤ s.src.length → (stringLoopAux n s).current ≤ s.src.length)
    ∧ (stringLoopAux n s).line =
        s.line + countNL (seg s.src s.current (stringLoopAux n s).current)
    ∧ (s.src.length - s.current ≤ n →
        peek (stringLoopAux n s) = quoteChar ∨ isAtEnd (stringLoopAux n s) = true)
  | 0, s => by
    refine ⟨rfl, rfl, Nat.le_refl _, fun h => h,
      by simp [stringLoopAux, seg_self, countNL], ?_⟩
    intro h
    right
    show decide (peek (stringLoopAux 0 s) = nullChar) = true
    rw [decide_eq_true_eq]
    show s.src.getD s.current nullChar = nullChar
    exact List.getD_eq_default _ _ (by omega)
  | n + 1, s => by
    by_cases hg : peek s ≠ quoteChar ∧ ¬ isAtEnd s = true
    · have hnull : peek s ≠ nullChar := by simpa [isAtEnd] using hg.2
      have hlt : s.current < s.src.length := lt_length_of_peek_ne s hnull
      rw [show stringLoopAux (n + 1) s =
            stringLoopAux n
              (advanceS (if peek s = '\n' then { s with line := s.line + 1 } else s)) from by
        rw [stringLoopAux, if_pos hg]]
      have IH := stringLoopAux_spec n
        (advanceS (if peek s = '\n' then { s with line := s.line + 1 } else s))
      have hsrc :
          (advanceS (if peek s = '\n' then { s with line := s.line + 1 } else s)).src =
            s.src := by
        by_cases hnl : peek s = '\n' <;> simp [hnl, advanceS]
      have hstart :
          (advanceS (if peek s = '\n' then { s with line := s.line + 1 } else s)).start =
            s.start := by
        by_cases hnl : peek s = '\n' <;> simp [hnl, advanceS]
      have hcur :
          (advanceS (if peek s = '\n' then { s with line := s.line + 1 } else s)).current =
            s.current + 1 := by
        by_cases hnl : peek s = '\n' <;> simp [hnl, advanceS]
      have hline :
          (advanceS (if peek s = '\n' then { s with line := s.line + 1 } else s)).line =
            s.line + (if peek s = '\n' then 1 else 0) := by
        by_cases hnl : peek s = '\n' <;> simp [hnl, advanceS]
      rw [hsrc, hstart, hcur, hline] at IH
      obtain ⟨h1, h2, h3, h4, h5, h6⟩ := IH
      refine ⟨h1, h2, by omega, fun hle => h4 (by omega), ?_, fun hfuel => h6 (by omega)⟩
      rw [h5, seg_cons s.src s.current _ hlt (by omega), countNL_cons,
        ← peek_eq_getElem s hlt]
      omega
    · rw [show stringLoopAux (n + 1) s = s from by rw [stringLoopAux, if_neg hg]]
      refine ⟨rfl, rfl, Nat.le_refl _, fun h => h, by simp [seg_self, countNL], ?_⟩
      intro _
      rcases not_and_or.mp hg with h | h
      · exact Or.inl (not_not.mp (fun hne => h hne))
      · exact Or.inr (not_not.mp h)

/-- With any fuel at all, a comment loop whose guard initially holds
consumes at least one character. -/
theorem skipCommentAux_progress (n : Nat) (s : ScannerS)
    (hg : peek s ≠ '\n' ∧ ¬ isAtEnd s = true) (hn : 1 ≤ n) :
    s.current + 1 ≤ (skipCommentAux n s).current := by
  obtain ⟨m, rfl⟩ : ∃ m, n = m + 1 := ⟨n - 1, by omega⟩
  rw [skipCommentAux, if_pos hg]
  have h := (skipCommentAux_spec m (advanceS s)).2.2.2.1
  simpa [advanceS] using h

/-- The whitespace loop: preserves src and start, moves the cursor
monotonically inside the buffer, adds exactly the consumed newlines to the
line counter, either does nothing at all or strictly advances, and — with
fuel exceeding the characters left — exits only on a non-whitespace,
non-newline character. -/
theorem skipWsAux_spec : ∀ (n : Nat) (s : ScannerS),
    (skipWsAux n s).src = s.src
    ∧ (skipWsAux n s).start = s.start
    ∧ s.current ≤ (skipWsAux n s).current
    ∧ (s.current ≤ s.src.length → (skipWsAux n s).current ≤ s.src.length)
    ∧ (skipWsAux n s).line = s.line + countNL (seg s.src s.current (skipWsAux n s).current)
    ∧ (skipWsAux n s = s ∨ s.current < (skipWsAux n s).current)
    ∧ (s.src.length - s.current < n →
        peek (skipWsAux n s) ≠ ' ' ∧ peek (skipWsAux n s) ≠ '\r' ∧
        peek (skipWsAux n s) ≠ '\t' ∧ peek (skipWsAux n s) ≠ '\n')
  | 0, s => by
    refine ⟨rfl, rfl, Nat.le_refl _, fun h => h,
      by simp [skipWsAux, seg_self, countNL], Or.inl rfl, fun h => absurd h (by omega)⟩
  | n + 1, s => by
    by_cases h1 : peek s = ' ' ∨ peek s = '\r' ∨ peek s = '\t'
    · have hne : peek s ≠ '\n' ∧ peek s ≠ nullChar := by
        rcases h1 with h | h | h <;> rw [h] <;> exact ⟨by decide, by decide⟩
      have hlt : s.current < s.src.length := lt_length_of_peek_ne s hne.2
      rw [show skipWsAux (n + 1) s = skipWsAux n (advanceS s) from by
        rw [skipWsAux, if_pos h1]]
      have IH := skipWsAux_spec n (advanceS s)
      simp only [advanceS] at IH ⊢
      obtain ⟨g1, g2, g3, g4, g5, _, g7⟩ := IH
      refine ⟨g1, g2, by omega, fun hle => g4 (by omega), ?_, Or.inr (by omega),
        fun hfuel => g7 (by omega)⟩
      rw [g5, seg_cons s.src s.current _ hlt (by omega), countNL_cons,
        ← peek_eq_getElem s hlt, if_neg hne.1]
      omega
    · by_cases h2 : peek s = '\n'
      · have hnull : peek s ≠ nullChar := by rw [h2]; decide
        have hlt : s.current < s.src.length := lt_length_of_peek_ne s hnull
        rw [show skipWsAux (n + 1) s = skipWsAux n (advanceS { s with line := s.line + 1 })
            from by rw [skipWsAux, if_neg h1, if_pos h2]]
        have IH := skipWsAux_spec n (advanceS { s with line := s.line + 1 })
        simp only [advanceS] at IH ⊢
        obtain ⟨g1, g2, g3, g4, g5, _, g7⟩ := IH
        refine ⟨g1, g2, by omega, fun hle => g4 (by omega), ?_, Or.inr (by omega),
          fun hfuel => g7 (by omega)⟩
        rw [g5, seg_cons s.src s.current _ hlt (by omega), countNL_cons,
          ← peek_eq_getElem s hlt, if_pos h2]
        omega
      · by_cases h3 : peek s = '/'
        · by_cases h4 : peekNext s = '/'
          · have hnull : peek s ≠ nullChar := by rw [h3]; decide
            have hlt : s.current < s.src.length := lt_length_of_peek_ne s hnull
            rw [show skipWsAux (n + 1) s =
                  skipWsAux n (skipCommentAux (s.src.length - s.current) s) from by
              rw [skipWsAux, if_neg h1, if_neg h2, if_pos h3, if_pos h4]]
            have hguard : peek s ≠ '\n' ∧ ¬ isAtEnd s = true := by
              refine ⟨h2, ?_⟩
              simp only [isAtEnd, decide_eq_true_eq, h3]
              decide
            obtain ⟨c1, c2, c3, c4, c5, c6⟩ :=
              skipCommentAux_spec (s.src.length - s.current) s
            have hprog := skipCommentAux_progress (s.src.length - s.current) s hguard (by omega)
            have IH := skipWsAux_spec n (skipCommentAux (s.src.length - s.current) s)
            rw [c1, c2] at IH
            obtain ⟨g1, g2, g3, g4, g5, _, g7⟩ := IH
            refine ⟨g1, g2, by omega, fun hle => g4 (c5 hle), ?_, Or.inr (by omega),
              fun hfuel => g7 (by omega)⟩
            rw [g5, c3, countNL_seg_split s.src s.current
                (skipCommentAux (s.src.length - s.current) s).current _ c4 g3, c6]
            omega
          · rw [show skipWsAux (n + 1) s = s from by
              rw [skipWsAux, if_neg h1, if_neg h2, if_pos h3, if_neg h4]]
            refine ⟨rfl, rfl, Nat.le_refl _, fun h => h,
              by simp [seg_self, countNL], Or.inl rfl, ?_⟩
            intro _
            rw [h3]
            exact ⟨by decide, by decide, by decide, by decide⟩
        · rw [show skipWsAux (n + 1) s = s from by
            rw [skipWsAux, if_neg h1, if_neg h2, if_neg h3]]
          push_neg at h1
          refine ⟨rfl, rfl, Nat.le_refl _, fun h => h,
            by simp [seg_self, countNL], Or.inl rfl, ?_⟩
          intro _
          exact ⟨h1.1, h1.2.1, h1.2.2, h2⟩

/-- The wrapper's fuel always exceeds the characters left, so every fact of
the loop lemma holds unconditionally of fuel. -/
theorem skipWhitespace_spec (s : ScannerS) :
    (skipWhitespace s).src = s.src
    ∧ (skipWhitespace s).start = s.start
    ∧ s.current ≤ (skipWhitespace s).current
    ∧ (s.current ≤ s.src.length → (skipWhitespace s).current ≤ s.src.length)
    ∧ (skipWhitespace s).line = s.line + countNL (seg s.src s.current (skipWhitespace s).current)
    ∧ (skipWhitespace s = s ∨ s.current < (skipWhitespace s).current)
    ∧ (peek (skipWhitespace s) ≠ ' ' ∧ peek (skipWhitespace s) ≠ '\r' ∧
       peek (skipWhitespace s) ≠ '\t' ∧ peek (skipWhitespace s) ≠ '\n') := by
  have h := skipWsAux_spec (s.src.length - s.current + 1) s
  exact ⟨h.1, h.2.1, h.2.2.1, h.2.2.2.1, h.2.2.2.2.1, h.2.2.2.2.2.1,
    h.2.2.2.2.2.2 (by omega)⟩

theorem matchChar_spec (expected : Char) (s : ScannerS) (hexp : expected ≠ '\n') :
    (matchChar expected s).2.src = s.src
    ∧ (matchChar expected s).2.start = s.start
    ∧ (matchChar expected s).2.line = s.line
    ∧ s.current ≤ (matchChar expected s).2.current
    ∧ (s.current ≤ s.src.length → (matchChar expected s).2.current ≤ s.src.length)
    ∧ countNL (seg s.src s.current (matchChar expected s).2.current) = 0 := by
  unfold matchChar
  by_cases hend : isAtEnd s = true
  · rw [if_pos hend]
    exact ⟨rfl, rfl, rfl, Nat.le_refl _, fun h => h, by simp [seg_self, countNL]⟩
  · rw [if_neg hend]
    by_cases hne : peek s ≠ expected
    · rw [if_pos hne]
      exact ⟨rfl, rfl, rfl, Nat.le_refl _, fun h => h, by simp [seg_self, countNL]⟩
    · rw [if_neg hne]
      have heq : peek s = expected := not_not.mp hne
      have hlt : s.current < s.src.length := lt_length_of_not_atEnd s hend
      refine ⟨rfl, rfl, rfl, Nat.le_succ _, fun _ => hlt, ?_⟩
      show countNL (seg s.src s.current (s.current + 1)) = 0
      rw [seg_cons s.src s.current _ hlt (by omega), seg_self, countNL_cons,
        ← peek_eq_getElem s hlt, heq, if_neg hexp]
      simp [countNL]

theorem number_spec (s : ScannerS) :
    (number s).2.src = s.src
    ∧ (number s).2.start = s.start
    ∧ (number s).2.line = s.line
    ∧ s.current ≤ (number s).2.current
    ∧ (s.current ≤ s.src.length → (number s).2.current ≤ s.src.length)
    ∧ countNL (seg s.src s.current (number s).2.current) = 0
    ∧ (number s).1 = makeToken TokenType.TOKEN_NUMBER (number s).2 := by
  obtain ⟨d1, d2, d3, d4, d5, d6⟩ := digitLoopAux_spec (s.src.length - s.current) s
  simp only [number]
  set u := digitLoopAux (s.src.length - s.current) s with hu
  by_cases hdot : peek u = '.' ∧ isDigit (peekNext u) = true
  · rw [if_pos hdot]
    have hltu : u.current < u.src.length :=
      lt_length_of_peek_ne u (by rw [hdot.1]; decide)
    have hlt : u.current < s.src.length := by rwa [d1] at hltu
    obtain ⟨e1, e2, e3, e4, e5, e6⟩ :=
      digitLoopAux_spec ((advanceS u).src.length - (advanceS u).current) (advanceS u)
    set w := digitLoopAux ((advanceS u).src.length - (advanceS u).current) (advanceS u)
      with hw
    have ha1 : (advanceS u).src = s.src := d1
    have f1 : w.src = s.src := e1.trans ha1
    have f2 : w.start = s.start := e2.trans d2
    have f3 : w.line = s.line := e3.trans d3
    have f4 : u.current + 1 ≤ w.current := e4
    have hlen : (advanceS u).src.length = s.src.length := by rw [ha1]
    have f5 : u.current + 1 ≤ s.src.length → w.current ≤ s.src.length := by
      intro h
      have h0 : (advanceS u).current ≤ (advanceS u).src.length := by
        rw [hlen]
        exact h
      have h1 := e5 h0
      rwa [hlen] at h1
    have f6 : countNL (seg s.src (u.current + 1) w.current) = 0 := by
      have h1 := e6
      rw [ha1] at h1
      exact h1
    refine ⟨f1, f2, f3, show s.current ≤ w.current from by omega,
      fun hle => f5 (by omega), ?_, rfl⟩
    show countNL (seg s.src s.current w.current) = 0
    rw [countNL_seg_split s.src s.current u.current w.current d4 (by omega), d6,
      countNL_seg_split s.src u.current (u.current + 1) w.current (by omega) f4,
      seg_cons s.src u.current (u.current + 1) hlt (by omega), seg_self, countNL_cons]
    have hpk : s.src[u.current] = peek u := by
      have hpu : peek u = u.src.getD u.current nullChar := rfl
      rw [hpu, d1]
      exact (List.getD_eq_getElem _ _ hlt).symm
    rw [hpk, hdot.1, if_neg (by decide : ¬('.' : Char) = '\n'), f6, countNL_nil]
  · rw [if_neg hdot]
    exact ⟨d1, d2, d3, d4, d5, d6, rfl⟩

theorem string_spec (s : ScannerS) :
    (string s).2.src = s.src
    ∧ (string s).2.start = s.start
    ∧ s.current ≤ (string s).2.current
    ∧ (s.current ≤ s.src.length → (string s).2.current ≤ s.src.length)
    ∧ (string s).2.line = s.line + countNL (seg s.src s.current (string s).2.current)
    ∧ (string s).1.line = (string s).2.line
    ∧ ((string s).1.type ≠ TokenType.TOKEN_ERROR →
        (string s).1 = makeToken TokenType.TOKEN_STRING (string s).2) := by
  obtain ⟨l1, l2, l3, l4, l5, l6⟩ := stringLoopAux_spec (s.src.length - s.current) s
  simp only [string]
  set u := stringLoopAux (s.src.length - s.current) s with hu
  by_cases hend : isAtEnd u = true
  · rw [if_pos hend]
    refine ⟨l1, l2, l3, l4, l5, rfl, ?_⟩
    intro h
    exact absurd rfl h
  · rw [if_neg hend]
    have hq : peek u = quoteChar := by
      rcases l6 (by omega) with h | h
      · exact h
      · exact absurd h hend
    have hltu : u.current < u.src.length := lt_length_of_not_atEnd u hend
    have hlt : u.current < s.src.length := by rwa [l1] at hltu
    refine ⟨l1, l2, show s.current ≤ u.current + 1 from by omega,
      fun hle => show u.current + 1 ≤ s.src.length from by omega, ?_, rfl, fun _ => rfl⟩
    show (advanceS u).line = s.line + countNL (seg s.src s.current (u.current + 1))
    have hadv : (advanceS u).line = u.line := rfl
    rw [hadv, l5,
      countNL_seg_split s.src s.current u.current (u.current + 1) (by omega) (by omega),
      seg_cons s.src u.current (u.current + 1) hlt (by omega), seg_self, countNL_cons]
    have hpk : s.src[u.current] = peek u := by
      have hpu : peek u = u.src.getD u.current nullChar := rfl
      rw [hpu, l1]
      exact (List.getD_eq_getElem _ _ hlt).symm
    rw [hpk, hq, if_neg (by decide : ¬ quoteChar = '\n'), countNL_nil]
    omega

/-- What every arm of the dispatch switch guarantees, relative to the state
`s1` just past the first significant character: src and pinned lexeme start
unchanged, cursor monotone and in bounds, the line counter advanced by
exactly the newlines consumed, the token stamped with the final line, and —
for non-error tokens — a span running from the pinned start to the final
cursor. -/
def AfterOk (s1 : ScannerS) (r : Token × ScannerS) : Prop :=
  r.2.src = s1.src
  ∧ r.2.start = s1.start
  ∧ s1.current ≤ r.2.current
  ∧ (s1.current ≤ s1.src.length → r.2.current ≤ s1.src.length)
  ∧ r.2.line = s1.line + countNL (seg s1.src s1.current r.2.current)
  ∧ r.1.line = r.2.line
  ∧ (r.1.type ≠ TokenType.TOKEN_ERROR →
      r.1.start = TokenStart.ofs r.2.start ∧ r.1.length = r.2.current - r.2.start)

theorem afterOk_make (ty : TokenType) (s1 : ScannerS) :
    AfterOk s1 (makeToken ty s1, s1) :=
  ⟨rfl, rfl, Nat.le_refl _, fun h => h, by simp [seg_self, countNL], rfl,
    fun _ => ⟨rfl, rfl⟩⟩

theorem afterOk_error (msg : List Char) (s1 : ScannerS) :
    AfterOk s1 (errorToken msg s1, s1) :=
  ⟨rfl, rfl, Nat.le_refl _, fun h => h, by simp [seg_self, countNL], rfl,
    fun h => absurd rfl h⟩

theorem afterOk_identifier (s1 : ScannerS) : AfterOk s1 (identifier s1) := by
  obtain ⟨i1, i2, i3, i4, i5, i6⟩ := identLoopAux_spec (s1.src.length - s1.current) s1
  simp only [identifier]
  set u := identLoopAux (s1.src.length - s1.current) s1 with hu
  refine ⟨i1, i2, i4, i5, ?_, rfl, fun _ => ⟨rfl, rfl⟩⟩
  show u.line = s1.line + countNL (seg s1.src s1.current u.current)
  rw [i3, i6]
  omega

theorem afterOk_number (s1 : ScannerS) : AfterOk s1 (number s1) := by
  obtain ⟨n1, n2, n3, n4, n5, n6, n7⟩ := number_spec s1
  refine ⟨n1, n2, n4, n5, ?_, ?_, ?_⟩
  · rw [n3, n6]
    omega
  · rw [n7]
    exact rfl
  · intro _
    rw [n7]
    exact ⟨rfl, rfl⟩

theorem afterOk_string (s1 : ScannerS) : AfterOk s1 (string s1) := by
  obtain ⟨t1, t2, t3, t4, t5, t6, t7⟩ := string_spec s1
  exact ⟨t1, t2, t3, t4, t5, t6, fun h => by rw [t7 h]; exact ⟨rfl, rfl⟩⟩

theorem afterOk_matchMake (ty : TokenType) (s1 : ScannerS) :
    AfterOk s1 (makeToken ty (matchChar '=' s1).2, (matchChar '=' s1).2) := by
  obtain ⟨m1, m2, m3, m4, m5, m6⟩ := matchChar_spec '=' s1 (by decide)
  refine ⟨m1, m2, m4, m5, ?_, rfl, fun _ => ⟨rfl, rfl⟩⟩
  show (matchChar '=' s1).2.line =
    s1.line + countNL (seg s1.src s1.current (matchChar '=' s1).2.current)
  rw [m3, m6]
  omega

theorem scanAfter_spec (c : Char) (s1 : ScannerS) : AfterOk s1 (scanAfter c s1) := by
  unfold scanAfter
  by_cases h1 : isAlpha c = true
  · rw [if_pos h1]
    exact afterOk_identifier s1
  rw [if_neg h1]
  by_cases h2 : isDigit c = true
  · rw [if_pos h2]
    exact afterOk_number s1
  rw [if_neg h2]
  by_cases h3 : c = '('
  · rw [if_pos h3]
    exact afterOk_make _ s1
  rw [if_neg h3]
  by_cases h4 : c = ')'
  · rw [if_pos h4]
    exact afterOk_make _ s1
  rw [if_neg h4]
  by_cases h5 : c = lbraceChar
  · rw [if_pos h5]
    exact afterOk_make _ s1
  rw [if_neg h5]
  by_cases h6 : c = rbraceChar
  · rw [if_pos h6]
    exact afterOk_make _ s1
  rw [if_neg h6]
  by_cases h7 : c = ';'
  · rw [if_pos h7]
    exact afterOk_make _ s1
  rw [if_neg h7]
  by_cases h8 : c = ','
  · rw [if_pos h8]
    exact afterOk_make _ s1
  rw [if_neg h8]
  by_cases h9 : c = '.'
  · rw [if_pos h9]
    exact afterOk_make _ s1
  rw [if_neg h9]
  by_cases h10 : c = '-'
  · rw [if_pos h10]
    exact afterOk_make _ s1
  rw [if_neg h10]
  by_cases h11 : c = '+'
  · rw [if_pos h11]
    exact afterOk_make _ s1
  rw [if_neg h11]
  by_cases h12 : c = '/'
  · rw [if_pos h12]
    exact afterOk_make _ s1
  rw [if_neg h12]
  by_cases h13 : c = '*'
  · rw [if_pos h13]
    exact afterOk_make _ s1
  rw [if_neg h13]
  by_cases h14 : c = '!'
  · rw [if_pos h14]
    exact afterOk_matchMake _ s1
  rw [if_neg h14]
  by_cases h15 : c = '='
  · rw [if_pos h15]
    exact afterOk_matchMake _ s1
  rw [if_neg h15]
  by_cases h16 : c = '<'
  · rw [if_pos h16]
    exact afterOk_matchMake _ s1
  rw [if_neg h16]
  by_cases h17 : c = '>'
  · rw [if_pos h17]
    exact afterOk_matchMake _ s1
  rw [if_neg h17]
  by_cases h18 : c = quoteChar
  · rw [if_pos h18]
    exact afterOk_string s1
  rw [if_neg h18]
  exact afterOk_error _ s1

/-- The master bookkeeping lemma for one `scanToken` call: the source is
untouched, the pinned lexeme start lies between the old cursor and the new
one, the cursor stays inside the buffer, the token's line is the line
counter after all newlines consumed by the call, any call not starting at
the sentinel strictly advances (as does any call returning a non-EOF
token), and a non-error token spans exactly [start, current). -/
theorem scanToken_spec (s : ScannerS) :
    (scanToken s).2.src = s.src
    ∧ s.current ≤ (scanToken s).2.start
    ∧ (scanToken s).2.start ≤ (scanToken s).2.current
    ∧ (s.current ≤ s.src.length → (scanToken s).2.current ≤ s.src.length)
    ∧ (scanToken s).2.line = s.line + countNL (seg s.src s.current (scanToken s).2.current)
    ∧ (scanToken s).1.line = (scanToken s).2.line
    ∧ (¬ isAtEnd s = true → s.current < (scanToken s).2.current)
    ∧ ((scanToken s).1.type ≠ TokenType.TOKEN_EOF → s.current < (scanToken s).2.current)
    ∧ ((scanToken s).1.type ≠ TokenType.TOKEN_ERROR →
        (scanToken s).1.start = TokenStart.ofs (scanToken s).2.start
        ∧ (scanToken s).1.length = (scanToken s).2.current - (scanToken s).2.start) := by
  obtain ⟨w1, w2, w3, w4, w5, w6, w7⟩ := skipWhitespace_spec s
  simp only [scanToken]
  set sw := skipWhitespace s with hsw
  by_cases hend : isAtEnd { sw with start := sw.current } = true
  · rw [if_pos hend]
    refine ⟨w1, w3, Nat.le_refl _, fun h => w4 h, w5, rfl, ?_, ?_, fun _ => ⟨rfl, rfl⟩⟩
    · intro h
      rcases w6 with heq | hlt
      · rw [heq] at hend
        exact absurd hend (by exact h)
      · exact hlt
    · intro h
      exact absurd rfl h
  · rw [if_neg hend]
    obtain ⟨a1, a2, a3, a4, a5, a6, a7⟩ :=
      scanAfter_spec (peek { sw with start := sw.current })
        (advanceS { sw with start := sw.current })
    set r := scanAfter (peek { sw with start := sw.current })
      (advanceS { sw with start := sw.current }) with hr
    have hlt : sw.current < s.src.length := by
      have h1 := lt_length_of_not_atEnd { sw with start := sw.current } hend
      have h2 : ({ sw with start := sw.current } : ScannerS).src = s.src := w1
      rw [h2] at h1
      exact h1
    have f1 : r.2.src = s.src := a1.trans w1
    have f2 : r.2.start = sw.current := a2
    have f3 : sw.current + 1 ≤ r.2.current := a3
    have hlen : (advanceS { sw with start := sw.current }).src.length = s.src.length := by
      have h2 : (advanceS { sw with start := sw.current }).src = s.src := w1
      rw [h2]
    have f4 : r.2.current ≤ s.src.length := by
      have h0 : (advanceS { sw with start := sw.current }).current ≤
          (advanceS { sw with start := sw.current }).src.length := by
        rw [hlen]
        exact show sw.current + 1 ≤ s.src.length from by omega
      have h1 := a4 h0
      rwa [hlen] at h1
    have f5 : r.2.line = sw.line + countNL (seg s.src (sw.current + 1) r.2.current) := by
      have h1 := a5
      have h2 : (advanceS { sw with start := sw.current }).src = s.src := w1
      rw [h2] at h1
      exact h1
    have hpk : s.src[sw.current] = peek sw := by
      have hh : peek sw = sw.src.getD sw.current nullChar := rfl
      rw [hh, w1]
      exact (List.getD_eq_getElem _ _ hlt).symm
    refine ⟨f1, by rw [f2]; exact w3, by rw [f2]; omega, fun _ => f4, ?_, a6,
      fun _ => by omega, fun _ => by omega, a7⟩
    rw [f5, w5,
      countNL_seg_split s.src s.current sw.current r.2.current w3 (by omega),
      countNL_seg_split s.src sw.current (sw.current + 1) r.2.current (by omega) f3,
      seg_cons s.src sw.current (sw.current + 1) hlt (by omega), seg_self, countNL_cons,
      hpk, if_neg w7.2.2.2, countNL_nil]
    omega

theorem countNL_take_split (src : List Char) (a b : Nat) (hab : a ≤ b) :
    countNL (src.take b) = countNL (src.take a) + countNL (seg src a b) := by
  unfold seg
  rw [← countNL_append, ← List.take_add, show a + (b - a) = b from by omega]

/-- Invariant of the scanner state through iterated `scanToken` calls: the
buffer is untouched, the cursor stays inside it, and the line counter is
one more than the number of newlines before the cursor. -/
theorem scanState_inv (source : List Char) : ∀ n : Nat,
    (scanState source n).src = source
    ∧ (scanState source n).current ≤ source.length
    ∧ (scanState source n).line = 1 + countNL (source.take (scanState source n).current)
  | 0 => ⟨rfl, by simp [scanState, initScanner], by simp [scanState, initScanner, countNL]⟩
  | n + 1 => by
    obtain ⟨p1, p2, p3⟩ := scanState_inv source n
    obtain ⟨t1, t2, t3, t4, t5, t6, t7, t8, t9⟩ := scanToken_spec (scanState source n)
    have hmono : (scanState source n).current ≤ (scanToken (scanState source n)).2.current := by
      omega
    refine ⟨?_, ?_, ?_⟩
    · show (scanToken (scanState source n)).2.src = source
      rw [t1, p1]
    · show (scanToken (scanState source n)).2.current ≤ source.length
      have h := t4 (by rw [p1]; exact p2)
      rwa [p1] at h
    · show (scanToken (scanState source n)).2.line =
        1 + countNL (source.take (scanToken (scanState source n)).2.current)
      rw [p1] at t5
      rw [t5, p3,
        countNL_take_split source (scanState source n).current
          (scanToken (scanState source n)).2.current hmono]
      omega

/-- Claim C7: an alphabetic/underscore-initiated lexeme resolves to a
keyword kind exactly when it equals a keyword table entry in both length
and content, and to `identifier` for every other lexeme — stated as the
pointwise agreement of the source's `identifierType` decision tree with
the spec's exact-match table lookup, together with the spec's worked
examples driven through `scanToken` itself. -/
theorem keyword_resolution_exact_match :
    (∀ lex : List Char, identifierType lex = keywordSpec lex)
    ∧ (nthTok (("for").toList) 0).type = TokenType.TOKEN_FOR
    ∧ (nthTok (("forest").toList) 0).type = TokenType.TOKEN_IDENTIFIER
    ∧ (nthTok (("fo").toList) 0).type = TokenType.TOKEN_IDENTIFIER :=
  ⟨identifierType_eq_kw, by decide, by decide, by decide⟩

/-- Claim C8 counterexample: scanning the 5-character buffer `"a<newline>b"`
(a string literal with an embedded newline) produces a string token whose
lexeme begins at offset 0, preceded by ZERO newline characters — so the
claim demands `line = 1 + 0 = 1` — yet the token's `line` field is 2:
`makeToken` stamps the line counter of the moment of creation, after the
embedded newline has been counted. -/
theorem string_token_line_is_end_line :
    (scanToken (initScanner (("\"a\nb\"").toList))).1.type = TokenType.TOKEN_STRING
    ∧ (scanToken (initScanner (("\"a\nb\"").toList))).2.start = 0
    ∧ countNL ((("\"a\nb\"").toList).take 0) = 0
    ∧ (scanToken (initScanner (("\"a\nb\"").toList))).1.line = 2
    ∧ (scanToken (initScanner (("\"a\nb\"").toList))).1.line ≠ 1 := by
  decide

/-- Claim C8 as amended: every token's `line` is 1 plus the number of
newline characters preceding the END of its lexeme (the scanner's line
counter when the token is created), and whenever the lexeme itself
contains no newline — which holds for every token kind except string
tokens with embedded newlines — this equals 1 plus the number of newlines
preceding the lexeme's start, as originally claimed. -/
theorem token_line_counts_consumed_newlines (source : List Char) (n : Nat) :
    (nthTok source n).line =
      1 + countNL (source.take ((scanState source (n + 1)).current))
    ∧ ('\n' ∉ lexemeOf (scanState source (n + 1)) →
        (nthTok source n).line =
          1 + countNL (source.take ((scanState source (n + 1)).start))) := by
  obtain ⟨q1, q2, q3⟩ := scanState_inv source (n + 1)
  obtain ⟨t1, t2, t3, t4, t5, t6, t7, t8, t9⟩ := scanToken_spec (scanState source n)
  have h1 : (nthTok source n).line = (scanState source (n + 1)).line := t6
  constructor
  · rw [h1]
    exact q3
  · intro hnl
    rw [h1, q3]
    have hst : (scanState source (n + 1)).start ≤ (scanState source (n + 1)).current := t3
    have hlexeme : lexemeOf (scanState source (n + 1)) =
        seg source (scanState source (n + 1)).start (scanState source (n + 1)).current := by
      unfold lexemeOf seg
      rw [q1]
    have hzero : countNL (seg source (scanState source (n + 1)).start
        (scanState source (n + 1)).current) = 0 := by
      rw [← hlexeme]
      exact List.count_eq_zero.mpr hnl
    rw [countNL_take_split source (scanState source (n + 1)).start
      (scanState source (n + 1)).current hst, hzero]
    omega

/-- Closed instance of the C8 theorem at the buffer `ab`: both conclusions
hold concretely for its identifier token (lexeme `ab`, no newline). -/
theorem token_line_witness :
    (nthTok (("ab").toList) 0).line =
      1 + countNL ((("ab").toList).take ((scanState (("ab").toList) 1).current))
    ∧ (nthTok (("ab").toList) 0).line =
      1 + countNL ((("ab").toList).take ((scanState (("ab").toList) 1).start)) :=
  ⟨(token_line_counts_consumed_newlines (("ab").toList) 0).1,
    (token_line_counts_consumed_newlines (("ab").toList) 0).2 (by decide)⟩

/-- As long as no EOF token has been returned, each call has strictly
advanced the cursor, so after `n` calls the cursor is at least `n`. -/
theorem scanState_progress_lower (source : List Char) : ∀ n : Nat,
    (∀ k : Nat, k < n → (nthTok source k).type ≠ TokenType.TOKEN_EOF) →
    n ≤ (scanState source n).current
  | 0, _ => Nat.zero_le _
  | n + 1, h => by
    have IH := scanState_progress_lower source n (fun k hk => h k (by omega))
    obtain ⟨t1, t2, t3, t4, t5, t6, t7, t8, t9⟩ := scanToken_spec (scanState source n)
    have hstep := t8 (h n (by omega))
    show n + 1 ≤ (scanToken (scanState source n)).2.current
    omega

/-- Claim C10: on any sentinel-terminated buffer of length L, (a) an
end-of-input token is returned within the first L + 1 calls; (b) the
cursor never moves past the buffer end; (c) every call whose cursor is not
already at the sentinel advances it by at least one character; and (d)
every non-error token's span lies entirely inside the buffer (end-of-input
tokens have length 0). -/
theorem scanner_progress_and_termination (source : List Char) :
    (∃ n, n ≤ source.length ∧ (nthTok source n).type = TokenType.TOKEN_EOF)
    ∧ (∀ n : Nat, (scanState source n).current ≤ source.length)
    ∧ (∀ n : Nat, ¬ isAtEnd (scanState source n) = true →
        (scanState source n).current < (scanState source (n + 1)).current)
    ∧ (∀ n : Nat, (nthTok source n).type ≠ TokenType.TOKEN_ERROR →
        ∃ p, (nthTok source n).start = TokenStart.ofs p ∧
          p + (nthTok source n).length ≤ source.length) := by
  refine ⟨?_, fun n => (scanState_inv source n).2.1, ?_, ?_⟩
  · by_contra hno
    push_neg at hno
    have hall : ∀ k : Nat, k < source.length + 1 →
        (nthTok source k).type ≠ TokenType.TOKEN_EOF := by
      intro k hk
      exact hno k (by omega)
    have hlow := scanState_progress_lower source (source.length + 1) hall
    have hup := (scanState_inv source (source.length + 1)).2.1
    omega
  · intro n h
    obtain ⟨t1, t2, t3, t4, t5, t6, t7, t8, t9⟩ := scanToken_spec (scanState source n)
    exact t7 h
  · intro n h
    obtain ⟨t1, t2, t3, t4, t5, t6, t7, t8, t9⟩ := scanToken_spec (scanState source n)
    obtain ⟨hs, hl⟩ := t9 h
    refine ⟨(scanToken (scanState source n)).2.start, hs, ?_⟩
    have hl2 : (nthTok source n).length =
        (scanToken (scanState source n)).2.current -
          (scanToken (scanState source n)).2.start := hl
    rw [hl2]
    have hup := (scanState_inv source (n + 1)).2.1
    have hcur : (scanToken (scanState source n)).2.current ≤ source.length := hup
    omega

/-- Closed instance of the C10 theorem at the one-character buffer `a`:
EOF is reached within 2 calls, the first call (not at the sentinel)
advances the cursor, and the identifier token's span lies inside the
buffer. -/
theorem scanner_progress_witness :
    (∃ n, n ≤ (("a").toList).length ∧ (nthTok (("a").toList) n).type = TokenType.TOKEN_EOF)
    ∧ (scanState (("a").toList) 0).current < (scanState (("a").toList) 1).current
    ∧ ∃ p, (nthTok (("a").toList) 0).start = TokenStart.ofs p ∧
        p + (nthTok (("a").toList) 0).length ≤ (("a").toList).length := by
  have h := scanner_progress_and_termination (("a").toList)
  exact ⟨h.1, h.2.2.1 0 (by decide), h.2.2.2 0 (by decide)⟩

/-- `skipWhitespace` does nothing when the cursor stands on a character
none of its arms accepts. -/
theorem skipWhitespace_eq_of_other (s : ScannerS) (h1 : peek s ≠ ' ')
    (h2 : peek s ≠ '\r') (h3 : peek s ≠ '\t') (h4 : peek s ≠ '\n')
    (h5 : peek s ≠ '/') : skipWhitespace s = s := by
  unfold skipWhitespace
  have hA : ¬(peek s = ' ' ∨ peek s = '\r' ∨ peek s = '\t') := by
    rintro (h | h | h)
    exacts [h1 h, h2 h, h3 h]
  rw [skipWsAux, if_neg hA, if_neg h4, if_neg h5]

/-- If no closing quote (and no interior sentinel) remains, the string
loop runs to the end of the buffer. -/
theorem stringLoopAux_no_quote : ∀ (n : Nat) (t : ScannerS),
    nullChar ∉ t.src → quoteChar ∉ t.src.drop t.current →
    t.current ≤ t.src.length → t.src.length - t.current ≤ n →
    (stringLoopAux n t).current = t.src.length
  | 0, t, _, _, hle, hfuel => by
    rw [show stringLoopAux 0 t = t from rfl]
    omega
  | n + 1, t, hnn, hnq, hle, hfuel => by
    by_cases hcur : t.current < t.src.length
    · have hpk : peek t = t.src[t.current] := peek_eq_getElem t hcur
      have hmem : t.src[t.current] ∈ t.src.drop t.current := by
        rw [List.drop_eq_getElem_cons hcur]
        exact List.mem_cons_self _ _
      have hg : peek t ≠ quoteChar ∧ ¬ isAtEnd t = true := by
        constructor
        · rw [hpk]
          intro hq
          rw [hq] at hmem
          exact hnq hmem
        · intro h0
          rw [show isAtEnd t = decide (peek t = nullChar) from rfl,
            decide_eq_true_eq, hpk] at h0
          rw [h0] at hmem
          exact hnn (List.mem_of_mem_drop hmem)
      rw [stringLoopAux, if_pos hg]
      set t2 := advanceS (if peek t = '\n' then { t with line := t.line + 1 } else t)
        with ht2
      have h2src : t2.src = t.src := by
        by_cases hnl : peek t = '\n' <;> simp [ht2, hnl, advanceS]
      have h2cur : t2.current = t.current + 1 := by
        by_cases hnl : peek t = '\n' <;> simp [ht2, hnl, advanceS]
      have hnq2 : quoteChar ∉ t2.src.drop t2.current := by
        rw [h2src, h2cur]
        rw [List.drop_eq_getElem_cons hcur] at hnq
        intro hm
        exact hnq (List.mem_cons_of_mem _ hm)
      have IH := stringLoopAux_no_quote n t2 (by rw [h2src]; exact hnn) hnq2
        (by rw [h2src, h2cur]; omega) (by rw [h2src, h2cur]; omega)
      rw [IH, h2src]
    · have hpk : peek t = nullChar := by
        unfold peek
        exact List.getD_eq_default _ _ (by omega)
      have hg : ¬(peek t ≠ quoteChar ∧ ¬ isAtEnd t = true) := by
        rintro ⟨-, hne⟩
        apply hne
        rw [show isAtEnd t = decide (peek t = nullChar) from rfl, decide_eq_true_eq]
        exact hpk
      rw [stringLoopAux, if_neg hg]
      omega

/-- If a closing quote remains (and no interior sentinel precedes it), the
string loop stops on a quote. -/
theorem stringLoopAux_finds_quote : ∀ (n : Nat) (t : ScannerS),
    nullChar ∉ t.src → quoteChar ∈ t.src.drop t.current →
    t.current ≤ t.src.length → t.src.length - t.current ≤ n →
    peek (stringLoopAux n t) = quoteChar
  | 0, t, _, hq, hle, hfuel => by
    have hcl : t.current = t.src.length := by omega
    rw [hcl, List.drop_length] at hq
    exact absurd hq (List.not_mem_nil _)
  | n + 1, t, hnn, hq, hle, hfuel => by
    by_cases hpq : peek t = quoteChar
    · have hg : ¬(peek t ≠ quoteChar ∧ ¬ isAtEnd t = true) := by
        rintro ⟨hne, -⟩
        exact hne hpq
      rw [stringLoopAux, if_neg hg]
      exact hpq
    · have hcur : t.current < t.src.length := by
        by_contra hh
        have hcl : t.current = t.src.length := by omega
        rw [hcl, List.drop_length] at hq
        exact absurd hq (List.not_mem_nil _)
      have hpk : peek t = t.src[t.current] := peek_eq_getElem t hcur
      have hnull : peek t ≠ nullChar := by
        rw [hpk]
        intro h0
        apply hnn
        rw [← h0]
        exact List.getElem_mem hcur
      have hg : peek t ≠ quoteChar ∧ ¬ isAtEnd t = true := by
        refine ⟨hpq, ?_⟩
        intro h0
        rw [show isAtEnd t = decide (peek t = nullChar) from rfl,
          decide_eq_true_eq] at h0
        exact hnull h0
      rw [stringLoopAux, if_pos hg]
      set t2 := advanceS (if peek t = '\n' then { t with line := t.line + 1 } else t)
        with ht2
      have h2src : t2.src = t.src := by
        by_cases hnl : peek t = '\n' <;> simp [ht2, hnl, advanceS]
      have h2cur : t2.current = t.current + 1 := by
        by_cases hnl : peek t = '\n' <;> simp [ht2, hnl, advanceS]
      have hq2 : quoteChar ∈ t2.src.drop t2.current := by
        rw [h2src, h2cur]
        rw [List.drop_eq_getElem_cons hcur] at hq
        rcases List.mem_cons.mp hq with heq | hmem
        · exact absurd (hpk.trans heq.symm) hpq
        · exact hmem
      exact stringLoopAux_finds_quote n t2 (by rw [h2src]; exact hnn) hq2
        (by rw [h2src, h2cur]; omega) (by rw [h2src, h2cur]; omega)

/-- Claim C9: scanning a double-quoted literal.  From any scanner state
standing on an opening quote (in a sentinel-terminated buffer): if no
closing quote follows, `scanToken` yields an error token carrying the
fixed unterminated-string message, whose line is the current line after
counting every newline consumed while searching (i.e. all newlines in the
rest of the buffer); if a closing quote follows, it yields a string token
whose span starts at the opening quote and ends at a closing quote — both
quote characters included — of length at least 2. -/
theorem string_scanning (s : ScannerS) (hq : peek s = quoteChar)
    (hnn : nullChar ∉ s.src) :
    (quoteChar ∉ s.src.drop (s.current + 1) →
        (scanToken s).1.type = TokenType.TOKEN_ERROR
        ∧ (scanToken s).1.start = TokenStart.lit untermMsg
        ∧ (scanToken s).1.length = untermMsg.length
        ∧ (scanToken s).1.line = s.line + countNL (s.src.drop (s.current + 1)))
    ∧ (quoteChar ∈ s.src.drop (s.current + 1) →
        (scanToken s).1.type = TokenType.TOKEN_STRING
        ∧ (scanToken s).1.start = TokenStart.ofs s.current
        ∧ 2 ≤ (scanToken s).1.length
        ∧ s.src.getD s.current nullChar = quoteChar
        ∧ s.src.getD (s.current + (scanToken s).1.length - 1) nullChar = quoteChar) := by
  have hcur : s.current < s.src.length := lt_length_of_peek_ne s (by rw [hq]; decide)
  have hsw : skipWhitespace s = s :=
    skipWhitespace_eq_of_other s (by rw [hq]; decide) (by rw [hq]; decide)
      (by rw [hq]; decide) (by rw [hq]; decide) (by rw [hq]; decide)
  have hscan : scanToken s = string (advanceS { s with start := s.current }) := by
    simp only [scanToken]
    rw [hsw]
    have hend : ¬ isAtEnd { s with start := s.current } = true := by
      intro hcontra
      rw [show isAtEnd { s with start := s.current } =
            decide (peek { s with start := s.current } = nullChar) from rfl,
        decide_eq_true_eq,
        show peek { s with start := s.current } = peek s from rfl, hq] at hcontra
      exact absurd hcontra (by decide)
    rw [if_neg hend, show peek { s with start := s.current } = quoteChar from hq]
    unfold scanAfter
    rw [if_neg (by decide), if_neg (by decide), if_neg (by decide), if_neg (by decide),
      if_neg (by decide), if_neg (by decide), if_neg (by decide), if_neg (by decide),
      if_neg (by decide), if_neg (by decide), if_neg (by decide), if_neg (by decide),
      if_neg (by decide), if_neg (by decide), if_neg (by decide), if_neg (by decide),
      if_neg (by decide), if_pos rfl]
  rw [hscan]
  obtain ⟨l1, l2, l3, l4, l5, l6⟩ := stringLoopAux_spec
    ((advanceS { s with start := s.current }).src.length -
      (advanceS { s with start := s.current }).current)
    (advanceS { s with start := s.current })
  simp only [string]
  set u := stringLoopAux
    ((advanceS { s with start := s.current }).src.length -
      (advanceS { s with start := s.current }).current)
    (advanceS { s with start := s.current }) with hu
  constructor
  · intro hnq
    have hcurU : u.current = s.src.length := by
      have h := stringLoopAux_no_quote
        ((advanceS { s with start := s.current }).src.length -
          (advanceS { s with start := s.current }).current)
        (advanceS { s with start := s.current })
        (by exact hnn) (by exact hnq) (by show s.current + 1 ≤ s.src.length; omega)
        (Nat.le_refl _)
      exact h
    have hend : isAtEnd u = true := by
      rw [show isAtEnd u = decide (peek u = nullChar) from rfl, decide_eq_true_eq]
      show u.src.getD u.current nullChar = nullChar
      apply List.getD_eq_default
      have husrc : u.src = s.src := l1
      rw [husrc, hcurU]
    rw [if_pos hend]
    refine ⟨rfl, rfl, rfl, ?_⟩
    show u.line = s.line + countNL (s.src.drop (s.current + 1))
    have hseg : seg (advanceS { s with start := s.current }).src
        (advanceS { s with start := s.current }).current u.current =
          s.src.drop (s.current + 1) := by
      unfold seg
      rw [show (advanceS { s with start := s.current }).src = s.src from rfl,
        show (advanceS { s with start := s.current }).current = s.current + 1 from rfl,
        hcurU]
      exact List.take_of_length_le (le_of_eq (List.length_drop _ _))
    rw [l5, hseg]
    rfl
  · intro hq2
    have hpkU : peek u = quoteChar := by
      have h := stringLoopAux_finds_quote
        ((advanceS { s with start := s.current }).src.length -
          (advanceS { s with start := s.current }).current)
        (advanceS { s with start := s.current })
        (by exact hnn) (by exact hq2) (by show s.current + 1 ≤ s.src.length; omega)
        (Nat.le_refl _)
      exact h
    have hendU : ¬ isAtEnd u = true := by
      intro hcontra
      rw [show isAtEnd u = decide (peek u = nullChar) from rfl, decide_eq_true_eq,
        hpkU] at hcontra
      exact absurd hcontra (by decide)
    rw [if_neg hendU]
    have e3 : u.start = s.current := l2
    have e4 : s.current + 1 ≤ u.current := l3
    refine ⟨rfl, ?_, ?_, hq, ?_⟩
    · show TokenStart.ofs (advanceS u).start = TokenStart.ofs s.current
      rw [show (advanceS u).start = u.start from rfl, e3]
    · show 2 ≤ (advanceS u).current - (advanceS u).start
      rw [show (advanceS u).current = u.current + 1 from rfl,
        show (advanceS u).start = u.start from rfl, e3]
      omega
    · show s.src.getD (s.current + ((advanceS u).current - (advanceS u).start) - 1)
        nullChar = quoteChar
      rw [show (advanceS u).current = u.current + 1 from rfl,
        show (advanceS u).start = u.start from rfl, e3,
        show s.current + (u.current + 1 - s.current) - 1 = u.current from by omega]
      have huq : u.src.getD u.current nullChar = quoteChar := hpkU
      have husrc : u.src = s.src := l1
      rw [husrc] at huq
      exact huq

/-- Closed instance of the C9 theorem: the buffer `"ab` (opening quote,
no closing quote) yields the unterminated-string error token, and the
buffer `"ab"` yields a string token. -/
theorem string_scanning_witness :
    (scanToken (initScanner (("\"ab").toList))).1.type = TokenType.TOKEN_ERROR
    ∧ (scanToken (initScanner (("\"ab\"").toList))).1.type = TokenType.TOKEN_STRING := by
  have h1 := string_scanning (initScanner (("\"ab").toList)) (by decide) (by decide)
  have h2 := string_scanning (initScanner (("\"ab\"").toList)) (by decide) (by decide)
  exact ⟨(h1.1 (by decide)).1, (h2.2 (by decide)).1⟩
